import Mathlib

/-!
Verification development for the data-structure-visualizer repository.

The C++ core (an operation / undo-redo engine over array, stack and binary
tree structures) is shallowly embedded here:

* `ArrayStructure` models `src/data_structure/ArrayStructure.h` (a C array of
  capacity `MAX_SIZE = 100` together with `currentSize`; the buffer beyond
  `currentSize` is hidden state).
* `StackStructure` models `src/data_structure/StackStructure.h`
  (`std::stack<int>`, head of the list = top).
* `Tree` models `src/data_structure/BinaryTreeStructure.h` (registry from
  integer id to node, root / temp-slot references, node counter, id counter).
* The atomic operations of `src/operation/ArrayOps.h`, `StackOps.h` and
  `BinaryTreeOps.h` become inductive types carrying their captured inverse
  data; `execute` returns the updated (capturing) operation together with the
  new structure state, `undo` uses the captured data, `clone` copies exactly
  the fields the C++ `clone` copies.
* `UserOperation.executeAll` / `undoAllWith` model
  `src/core/UserOperation.h` (forward order / strict reverse order).
* `OperationManager` models `src/core/OperationManager.h`, and
  `VisualizationController`'s stepping loop models
  `src/visual/VisualizationController.h`.

Structure states are compared either with `=` (full state) or with
`ArrayStructure.Obs` (observable content: size plus all live cells), matching
the spec's "structural equality of the full Data Structure" for the array,
whose hidden C buffer past `currentSize` is not part of the structure's value.
-/

namespace DSVis

/-! ## Array structure (`ArrayStructure.h`) -/

/-- `ArrayStructure`: fixed capacity 100 buffer plus current size.
`data` models the whole C buffer `int data[MAX_SIZE]`; cells at indices
`≥ size` exist but are hidden from every observer. -/
structure ArrayStructure where
  data : Nat → Int
  size : Nat
deriving Inhabited

namespace ArrayStructure

/-- `MAX_SIZE` from `ArrayStructure.h`. -/
def maxSize : Nat := 100

/-- Reading a buffer cell, `arr[i]`. -/
def read (a : ArrayStructure) (i : Nat) : Int := a.data i

/-- Writing a buffer cell, `arr[i] = v`. -/
def write (a : ArrayStructure) (i : Nat) (v : Int) : ArrayStructure :=
  { a with data := Function.update a.data i v }

/-- `ArrayStructure::resize`: clamp the requested size to `MAX_SIZE`,
zero-fill newly exposed cells when growing, then set `currentSize`. -/
def resize (a : ArrayStructure) (n : Nat) : ArrayStructure :=
  { data := fun j => if a.size ≤ j ∧ j < min n maxSize then 0 else a.data j
    size := min n maxSize }

/-- A fresh array holding the given values (what `ArrayInit` produces on a
fresh structure): buffer cells beyond the values are zero. -/
def ofList (l : List Int) : ArrayStructure :=
  { data := fun j => l.getD j 0, size := l.length }

/-- Observable equality: same size and same live cells.  The hidden buffer
beyond `currentSize` is not part of the structure's observable value. -/
def Obs (a b : ArrayStructure) : Prop :=
  a.size = b.size ∧ ∀ i, i < a.size → a.read i = b.read i

instance (a b : ArrayStructure) : Decidable (Obs a b) := by
  unfold Obs; infer_instance

theorem Obs.refl (a : ArrayStructure) : Obs a a := ⟨rfl, fun _ _ => rfl⟩

theorem Obs.of_eq {a b : ArrayStructure} (h : a = b) : Obs a b := h ▸ Obs.refl a

@[simp] theorem read_write_self (a : ArrayStructure) (i : Nat) (v : Int) :
    (a.write i v).read i = v := by
  simp [read, write]

theorem read_write_other (a : ArrayStructure) {i j : Nat} (h : j ≠ i) (v : Int) :
    (a.write i v).read j = a.read j := by
  simp [read, write, Function.update, h]

@[simp] theorem size_write (a : ArrayStructure) (i : Nat) (v : Int) :
    (a.write i v).size = a.size := rfl

/-- Writing back the value a cell already holds changes nothing. -/
theorem write_read_self (a : ArrayStructure) (i : Nat) :
    a.write i (a.read i) = a := by
  cases a with
  | mk d s => simp [write, read, Function.update_eq_self]

/-- Two writes to the same cell: only the outer one remains. -/
theorem write_write_self (a : ArrayStructure) (i : Nat) (v w : Int) :
    (a.write i v).write i w = a.write i w := by
  cases a with
  | mk d s => simp [write, Function.update_idem]

/-- Writes to distinct cells commute. -/
theorem write_comm (a : ArrayStructure) {i j : Nat} (h : i ≠ j) (v w : Int) :
    (a.write i v).write j w = (a.write j w).write i v := by
  cases a with
  | mk d s =>
    simp only [write]
    rw [Function.update_comm h]

end ArrayStructure

/-! ## Atomic array operations (`ArrayOps.h`)

Each constructor carries the operation's parameters together with the fields
the C++ object uses to capture inverse data at execute time (`oldValue`,
`oldSize`). -/

/-- Atomic operations on the array: `WriteOp`, `MoveOp`, `ResizeOp`. -/
inductive ArrayOp where
  | WriteOp (index : Nat) (oldValue newValue : Int)
  | MoveOp (fromIndex toIndex : Nat) (oldValue : Int)
  | ResizeOp (newSize oldSize : Nat)
deriving DecidableEq, Inhabited

namespace ArrayOp

/-- `execute(DataStructure&)`: mutates the array and captures inverse data
into the operation; returns the updated operation and the new array. -/
def execute : ArrayOp → ArrayStructure → ArrayOp × ArrayStructure
  | WriteOp i _ v, a => (WriteOp i (a.read i) v, a.write i v)
  | MoveOp f t _, a => (MoveOp f t (a.read t), a.write t (a.read f))
  | ResizeOp n _, a => (ResizeOp n a.size, a.resize n)

/-- `undo(DataStructure&)`: restores using the captured inverse data. -/
def undo : ArrayOp → ArrayStructure → ArrayStructure
  | WriteOp i old _, a => a.write i old
  | MoveOp f t old, a => (a.write f (a.read t)).write t old
  | ResizeOp _ old, a => a.resize old

/-- `clone()`: `ResizeOp` and `WriteOp` copy their captured data;
`MoveOp::clone` constructs `MoveOp(fromIndex, toIndex)`, whose constructor
initialises `oldValue` to `0` — the captured old value is dropped. -/
def clone : ArrayOp → ArrayOp
  | WriteOp i old v => WriteOp i old v
  | MoveOp f t _ => MoveOp f t 0
  | ResizeOp n old => ResizeOp n old

end ArrayOp

/-! ## Composite operations (`UserOperation.h`), generically

`executeAll` runs the steps front to back, threading the captured operations;
`undoAllWith` runs `undo` back to front (`rbegin` to `rend`). -/

section Composite

variable {ω σ : Type}

/-- `UserOperation::execute`: run every atomic step in order, keeping the
updated (capturing) operations. -/
def executeAll (e : ω → σ → ω × σ) : List ω → σ → List ω × σ
  | [], s => ([], s)
  | op :: rest, s =>
    let p := e op s
    let q := executeAll e rest p.2
    (p.1 :: q.1, q.2)

/-- `UserOperation::undo`: undo every atomic step in reverse order
(last step first). -/
def undoAllWith (u : ω → σ → σ) (ops : List ω) (s : σ) : σ :=
  ops.foldr u s

@[simp] theorem executeAll_nil (e : ω → σ → ω × σ) (s : σ) :
    executeAll e [] s = ([], s) := rfl

@[simp] theorem executeAll_cons (e : ω → σ → ω × σ) (op : ω) (rest : List ω) (s : σ) :
    executeAll e (op :: rest) s =
      ((e op s).1 :: (executeAll e rest (e op s).2).1,
        (executeAll e rest (e op s).2).2) := rfl

@[simp] theorem undoAllWith_nil (u : ω → σ → σ) (s : σ) :
    undoAllWith u [] s = s := rfl

@[simp] theorem undoAllWith_cons (u : ω → σ → σ) (op : ω) (rest : List ω) (s : σ) :
    undoAllWith u (op :: rest) s = u op (undoAllWith u rest s) := rfl

/-- LIFO over steps: undoing `ops ++ [op]` undoes `op` first, then the rest. -/
theorem undoAllWith_append_singleton (u : ω → σ → σ) (ops : List ω) (op : ω) (s : σ) :
    undoAllWith u (ops ++ [op]) s = undoAllWith u ops (u op s) := by
  induction ops with
  | nil => rfl
  | cons o rest ih => simp [undoAllWith_cons, ih]

/-- The reverse-order characterisation: `undoAllWith` is the left fold of
`undo` over the reversed step list (steps `N-1 .. 0`). -/
theorem undoAllWith_eq_foldl_reverse (u : ω → σ → σ) (ops : List ω) (s : σ) :
    undoAllWith u ops s = ops.reverse.foldl (fun st op => u op st) s := by
  induction ops generalizing s with
  | nil => rfl
  | cons o rest ih => simp [undoAllWith_cons, ih, List.foldl_append]

/-- An operation is pointwise exact when its undo inverts its execute from
every state (using the data captured by that very execute). -/
def PointwiseExact (e : ω → σ → ω × σ) (u : ω → σ → σ) (op : ω) : Prop :=
  ∀ s, u (e op s).1 (e op s).2 = s

/-- A run is chain-exact when every step's undo inverts its execute from the
state at which the run actually executes it. -/
def ChainExact (e : ω → σ → ω × σ) (u : ω → σ → σ) : List ω → σ → Prop
  | [], _ => True
  | op :: rest, s => u (e op s).1 (e op s).2 = s ∧ ChainExact e u rest (e op s).2

theorem chainExact_of_pointwise {e : ω → σ → ω × σ} {u : ω → σ → σ}
    {ops : List ω} (h : ∀ op ∈ ops, PointwiseExact e u op) (s : σ) :
    ChainExact e u ops s := by
  induction ops generalizing s with
  | nil => trivial
  | cons o rest ih =>
    exact ⟨h o (List.mem_cons_self o rest) s,
      ih (fun op hop => h op (List.mem_cons_of_mem o hop)) _⟩

/-- Composite reversibility from chain exactness: executing all steps and
then undoing the captured steps in reverse order is the identity. -/
theorem undoAll_executeAll_of_chainExact {e : ω → σ → ω × σ} {u : ω → σ → σ} :
    ∀ {ops : List ω} {s : σ}, ChainExact e u ops s →
      undoAllWith u (executeAll e ops s).1 (executeAll e ops s).2 = s
  | [], _, _ => rfl
  | op :: rest, s, h => by
    have ih := undoAll_executeAll_of_chainExact (e := e) (u := u) h.2
    simp only [executeAll_cons, undoAllWith_cons]
    rw [ih, h.1]

end Composite

/-! ## Exactness of the individual array operations -/

namespace ArrayOp

theorem pointwiseExact_WriteOp (i : Nat) (o v : Int) :
    PointwiseExact execute undo (WriteOp i o v) := by
  intro a
  simp [execute, undo, ArrayStructure.write_write_self, ArrayStructure.write_read_self]

theorem pointwiseExact_MoveOp (f t : Nat) (o : Int) :
    PointwiseExact execute undo (MoveOp f t o) := by
  intro a
  by_cases h : f = t
  · subst h
    simp [execute, undo, ArrayStructure.read_write_self,
      ArrayStructure.write_write_self, ArrayStructure.write_read_self]
  · simp only [execute, undo, ArrayStructure.read_write_self]
    rw [ArrayStructure.write_comm a (fun ht => h ht.symm),
      ArrayStructure.write_read_self, ArrayStructure.write_write_self,
      ArrayStructure.write_read_self]

/-- Executing a resize and undoing it restores the observable state whenever
the resize does not shrink, or every truncated live cell holds `0`. -/
theorem resize_roundTrip_obs (a : ArrayStructure) (n : Nat)
    (hsize : a.size ≤ ArrayStructure.maxSize)
    (h : a.size ≤ n ∨ ∀ j, min n ArrayStructure.maxSize ≤ j → j < a.size → a.read j = 0) :
    ArrayStructure.Obs (undo (execute (ResizeOp n 0) a).1 (execute (ResizeOp n 0) a).2) a := by
  have hmax : ArrayStructure.maxSize = 100 := rfl
  constructor
  · show min a.size ArrayStructure.maxSize = a.size
    exact min_eq_left hsize
  · intro i hi
    have hi' : i < a.size := by
      have hsz : (undo (execute (ResizeOp n 0) a).1 (execute (ResizeOp n 0) a).2).size
          = min a.size ArrayStructure.maxSize := rfl
      rw [hsz] at hi
      omega
    show (if min n ArrayStructure.maxSize ≤ i ∧ i < min a.size ArrayStructure.maxSize then 0
        else if a.size ≤ i ∧ i < min n ArrayStructure.maxSize then 0 else a.data i) = a.data i
    by_cases h2 : min n ArrayStructure.maxSize ≤ i ∧ i < min a.size ArrayStructure.maxSize
    · rw [if_pos h2]
      rcases h with hgrow | hzero
      · exfalso; omega
      · exact (hzero i h2.1 hi').symm
    · rw [if_neg h2, if_neg (by omega : ¬ (a.size ≤ i ∧ i < min n ArrayStructure.maxSize))]

/-- A shrink followed by the corresponding grow-back equals zeroing the
re-exposed cell: this is the exact effect of undoing a one-step shrink. -/
theorem resize_shrink_grow (a : ArrayStructure) (h0 : 0 < a.size)
    (h1 : a.size ≤ ArrayStructure.maxSize) :
    undo (execute (ResizeOp (a.size - 1) 0) a).1 (execute (ResizeOp (a.size - 1) 0) a).2
      = a.write (a.size - 1) 0 := by
  have hmax : ArrayStructure.maxSize = 100 := rfl
  cases a with
  | mk d s =>
    simp only [ArrayStructure.size] at h0 h1
    simp only [execute, undo, ArrayStructure.resize, ArrayStructure.write,
      ArrayStructure.mk.injEq]
    constructor
    · funext j
      by_cases hj : j = s - 1
      · subst hj
        rw [if_pos (by omega), Function.update_same]
      · rw [if_neg (by omega), if_neg (by omega), Function.update_noteq hj]
    · omega

end ArrayOp

/-! ## Composite array operations (`ArrayOps.h` factories) -/

/-- The descending move chain of `ArrayInsert`: `n` steps
`Move(i, i+1)` for `i = index+n-1` down to `index`. -/
def descMoves (index : Nat) : Nat → List ArrayOp
  | 0 => []
  | m + 1 => .MoveOp (index + m) (index + m + 1) 0 :: descMoves index m

/-- The ascending move chain of `ArrayDelete`: `n` steps
`Move(i+1, i)` for `i = index` up to `index+n-1`. -/
def ascMoves (index : Nat) : Nat → List ArrayOp
  | 0 => []
  | m + 1 => .MoveOp (index + 1) index 0 :: ascMoves (index + 1) m

/-- `ArrayInsert::ArrayInsert`: empty when the array is full, otherwise one
`ResizeOp(size+1)`, then the descending move chain, then `WriteOp(index, value)`. -/
def arrayInsert (a : ArrayStructure) (index : Nat) (value : Int) : List ArrayOp :=
  if ArrayStructure.maxSize ≤ a.size then []
  else
    .ResizeOp (a.size + 1) 0 ::
      (descMoves index (a.size - index) ++ [.WriteOp index 0 value])

/-- `ArrayDelete::ArrayDelete`: empty when the array is empty, otherwise the
ascending move chain, then `ResizeOp(size-1)`. -/
def arrayDelete (a : ArrayStructure) (index : Nat) : List ArrayOp :=
  if a.size = 0 then []
  else ascMoves index (a.size - 1 - index) ++ [.ResizeOp (a.size - 1) 0]

/-- `ArrayInit::ArrayInit`: empty for no values, otherwise
`ResizeOp(n)` followed by one `WriteOp(i, values[i])` per value. -/
def arrayInit (values : List Int) : List ArrayOp :=
  if values = [] then []
  else .ResizeOp values.length 0 ::
    (List.range values.length).map (fun i => .WriteOp i 0 (values.getD i 0))

theorem descMoves_pointwiseExact {index n : Nat} :
    ∀ op ∈ descMoves index n, PointwiseExact ArrayOp.execute ArrayOp.undo op := by
  induction n with
  | zero => intro op h; cases h
  | succ m ih =>
    intro op h
    rcases List.mem_cons.mp h with rfl | h
    · exact ArrayOp.pointwiseExact_MoveOp _ _ _
    · exact ih op h

/-- The descending move chain, described as in the spec: step `k` (0-based)
is `Move(N-1-k, N-k)` where `N = index + n`, i.e. the moves run from the
tail backwards down to `index`. -/
theorem descMoves_eq_map (index n : Nat) :
    descMoves index n
      = (List.range n).map (fun k => ArrayOp.MoveOp (index + n - 1 - k) (index + n - k) 0) := by
  induction n with
  | zero => rfl
  | succ m ih =>
    rw [descMoves, ih, List.range_succ_eq_map, List.map_cons, List.map_map]
    congr 1
    congr 1
    funext k
    show ArrayOp.MoveOp (index + m - 1 - k) (index + m - k) 0
      = ArrayOp.MoveOp (index + (m + 1) - 1 - (k + 1)) (index + (m + 1) - (k + 1)) 0
    rw [show index + (m + 1) - 1 - (k + 1) = index + m - 1 - k from by omega,
      show index + (m + 1) - (k + 1) = index + m - k from by omega]

theorem executeAll_append {ω σ : Type} (e : ω → σ → ω × σ) (l1 l2 : List ω) (s : σ) :
    executeAll e (l1 ++ l2) s
      = ((executeAll e l1 s).1 ++ (executeAll e l2 (executeAll e l1 s).2).1,
          (executeAll e l2 (executeAll e l1 s).2).2) := by
  induction l1 generalizing s with
  | nil => rfl
  | cons o rest ih => simp [executeAll_cons, ih]

theorem undoAllWith_append {ω σ : Type} (u : ω → σ → σ) (l1 l2 : List ω) (s : σ) :
    undoAllWith u (l1 ++ l2) s = undoAllWith u l1 (undoAllWith u l2 s) :=
  List.foldr_append u s l1 l2

/-- Write and move steps never change the size. -/
theorem size_execute_MoveOp (f t : Nat) (o : Int) (a : ArrayStructure) :
    ((ArrayOp.execute (.MoveOp f t o) a).2).size = a.size := rfl

theorem size_executeAll_ascMoves (index n : Nat) (a : ArrayStructure) :
    ((executeAll ArrayOp.execute (ascMoves index n) a).2).size = a.size := by
  induction n generalizing index a with
  | zero => rfl
  | succ m ih => simpa [ascMoves, executeAll_cons, ArrayOp.execute] using ih (index + 1) _

/-- `ArrayInsert` is reversible from every starting state: executing all its
steps and undoing them back to front restores the observable array. -/
theorem arrayInsert_roundTrip (a : ArrayStructure) (index : Nat) (value : Int) :
    ArrayStructure.Obs
      (undoAllWith ArrayOp.undo (executeAll ArrayOp.execute (arrayInsert a index value) a).1
        (executeAll ArrayOp.execute (arrayInsert a index value) a).2) a := by
  unfold arrayInsert
  by_cases hg : ArrayStructure.maxSize ≤ a.size
  · rw [if_pos hg]
    exact ArrayStructure.Obs.refl a
  · rw [if_neg hg]
    have hcore : ∀ op ∈ descMoves index (a.size - index) ++ [ArrayOp.WriteOp index 0 value],
        PointwiseExact ArrayOp.execute ArrayOp.undo op := by
      intro op hop
      rcases List.mem_append.mp hop with hop | hop
      · exact descMoves_pointwiseExact op hop
      · rcases List.mem_singleton.mp hop with rfl
        exact ArrayOp.pointwiseExact_WriteOp _ _ _
    have hchain := chainExact_of_pointwise hcore
      (ArrayOp.execute (ArrayOp.ResizeOp (a.size + 1) 0) a).2
    simp only [executeAll_cons, undoAllWith_cons]
    rw [undoAll_executeAll_of_chainExact hchain]
    exact ArrayOp.resize_roundTrip_obs a (a.size + 1)
      (Nat.le_of_lt (Nat.lt_of_not_le hg)) (Or.inl (Nat.le_succ _))

/-- Undoing a captured shift move from a state whose source cell has been
clobbered: the move's undo first repairs the source cell from the
destination, then restores the destination from the captured value. -/
theorem undo_move_shift (a : ArrayStructure) (index : Nat) (c : Int) :
    ArrayOp.undo (ArrayOp.MoveOp (index + 1) index (a.read index))
      ((a.write index (a.read (index + 1))).write (index + 1) c) = a := by
  have hne : index ≠ index + 1 := by omega
  simp only [ArrayOp.undo]
  rw [ArrayStructure.read_write_other _ hne,
    ArrayStructure.read_write_self,
    ArrayStructure.write_write_self,
    ArrayStructure.write_comm a hne,
    ArrayStructure.write_read_self,
    ArrayStructure.write_write_self,
    ArrayStructure.write_read_self]

/-- Undoing an executed ascending move chain repairs an arbitrary value `z`
clobbered into the cell just past the chain (cell `index + n`), restoring the
original array exactly: the first undone move overwrites that cell again. -/
theorem ascMoves_repair : ∀ (n : Nat), 0 < n → ∀ (index : Nat) (a : ArrayStructure) (z : Int),
    undoAllWith ArrayOp.undo (executeAll ArrayOp.execute (ascMoves index n) a).1
      (((executeAll ArrayOp.execute (ascMoves index n) a).2).write (index + n) z) = a
  | 0, h, _, _, _ => absurd h (by omega)
  | 1, _, index, a, z => by
    simp only [ascMoves, executeAll_cons, executeAll_nil, undoAllWith_cons, undoAllWith_nil,
      ArrayOp.execute]
    exact undo_move_shift a index z
  | m + 2, _, index, a, z => by
    have ih := ascMoves_repair (m + 1) (by omega) (index + 1)
      ((ArrayOp.execute (.MoveOp (index + 1) index 0) a).2) z
    simp only [ascMoves, executeAll_cons, undoAllWith_cons] at ih ⊢
    rw [show index + (m + 2) = index + 1 + (m + 1) from by omega, ih]
    show ArrayOp.undo (ArrayOp.MoveOp (index + 1) index (a.read index))
      (a.write index (a.read (index + 1))) = a
    rw [← ArrayStructure.write_read_self (a.write index (a.read (index + 1))) (index + 1),
      ArrayStructure.read_write_other _ (by omega : index + 1 ≠ index)]
    exact undo_move_shift a index (a.read (index + 1))

/-- `ArrayDelete` at a non-tail index is reversible: the move undos repair
the cell the shrink-undo zero-filled, so the exact state returns. -/
theorem arrayDelete_roundTrip (a : ArrayStructure) (index : Nat)
    (hmax : a.size ≤ ArrayStructure.maxSize) (h : index + 2 ≤ a.size) :
    undoAllWith ArrayOp.undo (executeAll ArrayOp.execute (arrayDelete a index) a).1
      (executeAll ArrayOp.execute (arrayDelete a index) a).2 = a := by
  unfold arrayDelete
  rw [if_neg (by omega : ¬ a.size = 0)]
  rw [executeAll_append, undoAllWith_append]
  simp only [executeAll_cons, executeAll_nil, undoAllWith_cons, undoAllWith_nil]
  set e := (executeAll ArrayOp.execute (ascMoves index (a.size - 1 - index)) a).2 with he
  have hesize : e.size = a.size := size_executeAll_ascMoves _ _ _
  have hshrink : ArrayOp.undo (ArrayOp.execute (.ResizeOp (a.size - 1) 0) e).1
      (ArrayOp.execute (.ResizeOp (a.size - 1) 0) e).2 = e.write (a.size - 1) 0 := by
    have := ArrayOp.resize_shrink_grow e (by omega) (by omega)
    rw [hesize] at this
    exact this
  rw [hshrink]
  have hrep := ascMoves_repair (a.size - 1 - index) (by omega) index a 0
  rw [show index + (a.size - 1 - index) = a.size - 1 from by omega] at hrep
  exact hrep

/-- `ArrayDelete` at the tail index: the undo restores the size and all
surviving cells, but the re-exposed last cell is zero-filled. -/
theorem arrayDelete_tail (a : ArrayStructure) (index : Nat)
    (hmax : a.size ≤ ArrayStructure.maxSize) (h0 : 0 < a.size) (h : index + 1 = a.size) :
    undoAllWith ArrayOp.undo (executeAll ArrayOp.execute (arrayDelete a index) a).1
      (executeAll ArrayOp.execute (arrayDelete a index) a).2 = a.write (a.size - 1) 0 := by
  unfold arrayDelete
  rw [if_neg (by omega : ¬ a.size = 0),
    show a.size - 1 - index = 0 from by omega]
  simp only [ascMoves, List.nil_append, executeAll_cons, executeAll_nil,
    undoAllWith_cons, undoAllWith_nil]
  exact ArrayOp.resize_shrink_grow a h0 hmax

/-! ## Stack structure and operations (`StackStructure.h`, `StackOps.h`)

`std::stack<int>` is modelled as a `List Int`, head = top. -/

/-- Atomic stack operations: `PushOp`, `PopOp`, with their recorded flags. -/
inductive StackOp where
  | PushOp (value : Int) (wasSuccessful : Bool)
  | PopOp (poppedValue : Int) (wasEmpty : Bool)
deriving DecidableEq, Inhabited

namespace StackOp

/-- `execute`: push always succeeds and records it; pop records whether the
stack was empty and, if not, captures and removes the top. -/
def execute : StackOp → List Int → StackOp × List Int
  | PushOp v _, s => (PushOp v true, v :: s)
  | PopOp pv _, [] => (PopOp pv true, [])
  | PopOp _ _, x :: xs => (PopOp x false, xs)

/-- `undo`: pop the pushed value (guarded by the recorded success and a
non-empty check); push back the popped value unless the stack was empty. -/
def undo : StackOp → List Int → List Int
  | PushOp _ succ, s => if succ then s.tail else s
  | PopOp pv we, s => if we then s else pv :: s

/-- `clone` copies value and flags for both stack operations. -/
def clone : StackOp → StackOp
  | PushOp v succ => PushOp v succ
  | PopOp pv we => PopOp pv we

theorem pointwiseExact_PushOp (v : Int) (b : Bool) :
    PointwiseExact execute undo (PushOp v b) := by
  intro s; simp [execute, undo]

theorem pointwiseExact_PopOp (pv : Int) (b : Bool) :
    PointwiseExact execute undo (PopOp pv b) := by
  intro s; cases s <;> simp [execute, undo]

/-- Every stack operation is pointwise exact, hence every list of stack
operations (every stack composite) is reversible from every state. -/
theorem pointwiseExact (op : StackOp) : PointwiseExact execute undo op := by
  cases op with
  | PushOp v b => exact pointwiseExact_PushOp v b
  | PopOp pv b => exact pointwiseExact_PopOp pv b

end StackOp

/-! ## Stack composites (`StackOps.h` factories) -/

/-- The `while (!stack.data.empty()) stack.data.pop();` loop of
`StackInit::StackInit`. -/
def stackClearLoop : List Int → List Int
  | [] => []
  | _ :: xs => stackClearLoop xs

theorem stackClearLoop_eq_nil (s : List Int) : stackClearLoop s = [] := by
  induction s with
  | nil => rfl
  | cons x xs ih => simpa [stackClearLoop] using ih

/-- `StackInit::StackInit`: clears the stack directly in the constructor
(outside the tracked step list), then records one `PushOp` per value. -/
def stackInit (stack : List Int) (values : List Int) : List StackOp × List Int :=
  (values.map (fun v => StackOp.PushOp v false), stackClearLoop stack)

/-- `StackPush::StackPush`. -/
def stackPush (value : Int) : List StackOp := [StackOp.PushOp value false]

/-- `StackPop::StackPop`. -/
def stackPop : List StackOp := [StackOp.PopOp 0 true]

/-- `StackClear::StackClear`: one `PopOp` per current element. -/
def stackClear (stack : List Int) : List StackOp :=
  (List.range stack.length).map (fun _ => StackOp.PopOp 0 true)

/-- `StackReverse::StackReverse`: pop everything, then push the elements in
top-to-bottom order. -/
def stackReverse (stack : List Int) : List StackOp :=
  stack.map (fun _ => StackOp.PopOp 0 true) ++ stack.map (fun v => StackOp.PushOp v false)

/-! ## The `ArraySort` composite -/

namespace ArraySortModel

/-- Modelled from the spec: the `ArraySort` factory is called from
`main.cpp` and the visualizer panels but has no definition under `src/`.
Per the spec it is classic bubble sort, ascending, O(N²) pairwise adjacent
comparison, recording a Move (swap) step only for the adjacent pairs that
actually swap.  `bubblePass j l` is one comparison pass over `l` (which
starts at absolute index `j`), returning the list after the pass together
with the absolute indices `j'` at which a swap of `(j', j'+1)` happened. -/
def bubbleStep (j : Nat) (x : Int) : List Int → List Int × List Nat
  | [] => ([x], [])
  | y :: rest =>
    if y < x then
      let p := bubbleStep (j + 1) x rest
      (y :: p.1, j :: p.2)
    else
      let p := bubbleStep (j + 1) y rest
      (x :: p.1, p.2)

/-- Modelled from the spec: one comparison pass, delegating to
`bubbleStep` with the first element as the carried candidate. -/
def bubblePass (j : Nat) : List Int → List Int × List Nat
  | [] => ([], [])
  | x :: rest => bubbleStep j x rest

/-- Modelled from the spec: `n` bubble passes, accumulating swap steps. -/
def bubblePasses : Nat → List Int → List Int × List Nat
  | 0, l => (l, [])
  | k + 1, l =>
    let p := bubblePass 0 l
    let q := bubblePasses k p.1
    (q.1, p.2 ++ q.2)

/-- Modelled from the spec: the full bubble-sort simulation over the array's
live contents; `.1` is the sorted contents, `.2` the recorded swap steps,
one per adjacent pair that actually swapped. -/
def arraySort (l : List Int) : List Int × List Nat :=
  bubblePasses (l.length - 1) l

/-- Executing one recorded swap step against the live contents. -/
def applySwap (l : List Int) (j : Nat) : List Int :=
  (l.set j (l.getD (j + 1) 0)).set (j + 1) (l.getD j 0)

/-- Executing the whole `ArraySort` composite: apply its recorded swap steps
in order. -/
def applySwaps (l : List Int) (steps : List Nat) : List Int :=
  steps.foldl applySwap l

end ArraySortModel

/-! ## Binary tree structure (`BinaryTreeStructure.h`)

Nodes live in a registry keyed by integer id; `left`/`right`/`parent`,
`root` and `tempSlot` are (possibly dangling-free by usage) references,
modelled as optional ids. -/

/-- `TreeNode`: value plus child/parent references (by node id). -/
structure TreeNode where
  value : Int
  left : Option Int
  right : Option Int
  parent : Option Int
deriving DecidableEq, Inhabited

/-- `BinaryTreeStructure`: id counter, node registry, root reference,
single temp slot, node counter. -/
structure BinaryTreeStructure where
  nextNodeId : Int
  registry : Int → Option TreeNode
  root : Option Int
  tempSlot : Option Int
  nodeCount : Int

namespace BinaryTreeStructure

/-- `getNodeById`. -/
def getNodeById (t : BinaryTreeStructure) (id : Int) : Option TreeNode :=
  t.registry id

/-- `registerNode`: store under the node's id (overwriting any entry) and
increment the counter. -/
def registerNode (t : BinaryTreeStructure) (id : Int) (n : TreeNode) : BinaryTreeStructure :=
  { t with registry := Function.update t.registry id (some n), nodeCount := t.nodeCount + 1 }

/-- `unregisterNode`: erase the id and decrement the counter. -/
def unregisterNode (t : BinaryTreeStructure) (id : Int) : BinaryTreeStructure :=
  { t with registry := Function.update t.registry id none, nodeCount := t.nodeCount - 1 }

/-- `addToTempSlot`: the slot holds at most one node; adding overwrites. -/
def addToTempSlot (t : BinaryTreeStructure) (id : Int) : BinaryTreeStructure :=
  { t with tempSlot := some id }

/-- `removeFromTempSlot`: clears the slot only if it holds this node. -/
def removeFromTempSlot (t : BinaryTreeStructure) (id : Int) : BinaryTreeStructure :=
  { t with tempSlot := if t.tempSlot = some id then none else t.tempSlot }

/-- Mutating the node object registered under `id` in place. -/
def updateNode (t : BinaryTreeStructure) (id : Int) (f : TreeNode → TreeNode) :
    BinaryTreeStructure :=
  { t with registry := Function.update t.registry id ((t.registry id).map f) }

/-- `clear`: release every node, reset all references and counters. -/
def clear (_ : BinaryTreeStructure) : BinaryTreeStructure :=
  { nextNodeId := 0, registry := fun _ => none, root := none, tempSlot := none, nodeCount := 0 }

end BinaryTreeStructure

/-! ## Atomic tree operations (`BinaryTreeOps.h`) -/

/-- Atomic tree operations with their captured inverse data and flags. -/
inductive TreeOp where
  | SetRootOp (nodeId oldRootId : Int) (wasSet : Bool)
  | CreateNodeOp (value nodeId : Int) (wasCreated : Bool)
  | DeleteNodeOp (nodeId savedValue : Int) (wasDeleted : Bool)
  | ConnectOp (parentId childId : Int) (isLeftChild : Bool) (oldChildId : Int) (wasConnected : Bool)
  | DisconnectOp (parentId childId : Int) (isLeftChild : Bool) (wasDisconnected : Bool)
deriving DecidableEq, Inhabited

namespace TreeOp

open BinaryTreeStructure

/-- `execute` for each tree operation, following `BinaryTreeOps.h`:
lookups that fail leave the operation and the tree untouched. -/
def execute : TreeOp → BinaryTreeStructure → TreeOp × BinaryTreeStructure
  | SetRootOp id old ws, t =>
    match t.getNodeById id with
    | none => (SetRootOp id old ws, t)
    | some _ =>
      let oldRootId := match t.root with | some r => r | none => -1
      (SetRootOp id oldRootId true, removeFromTempSlot { t with root := some id } id)
  | CreateNodeOp v id _, t =>
    (CreateNodeOp v id true,
      addToTempSlot (registerNode t id { value := v, left := none, right := none, parent := none }) id)
  | DeleteNodeOp id sv wd, t =>
    match t.getNodeById id with
    | none => (DeleteNodeOp id sv wd, t)
    | some n =>
      (DeleteNodeOp id n.value true, unregisterNode (removeFromTempSlot t id) id)
  | ConnectOp p c left old wc, t =>
    match t.getNodeById p, t.getNodeById c with
    | some np, some _ =>
      let oldChild := if left then np.left else np.right
      let oldId := match oldChild with | some o => o | none => -1
      let t1 := updateNode t p
        (fun n => if left then { n with left := some c } else { n with right := some c })
      let t2 := updateNode t1 c (fun n => { n with parent := some p })
      (ConnectOp p c left oldId true, removeFromTempSlot t2 c)
    | _, _ => (ConnectOp p c left old wc, t)
  | DisconnectOp p c left _, t =>
    match t.getNodeById p, t.getNodeById c with
    | some _, some _ =>
      let t1 := updateNode t p
        (fun n => if left then { n with left := none } else { n with right := none })
      let t2 := updateNode t1 c (fun n => { n with parent := none })
      (DisconnectOp p c left true, addToTempSlot t2 c)
    | _, _ => (DisconnectOp p c left false, t)

/-- `undo` for each tree operation, guarded by the recorded flag. -/
def undo : TreeOp → BinaryTreeStructure → BinaryTreeStructure
  | SetRootOp id old ws, t =>
    if ws then
      let t1 := match t.getNodeById id with
        | some _ => addToTempSlot t id
        | none => t
      { t1 with root := match t1.getNodeById old with | some _ => some old | none => none }
    else t
  | CreateNodeOp _ id wc, t =>
    if wc then
      match t.getNodeById id with
      | some _ => unregisterNode (removeFromTempSlot t id) id
      | none => t
    else t
  | DeleteNodeOp id sv wd, t =>
    if wd then
      addToTempSlot (registerNode t id { value := sv, left := none, right := none, parent := none }) id
    else t
  | ConnectOp p c left old wc, t =>
    if wc then
      match t.getNodeById p, t.getNodeById c with
      | some _, some _ =>
        let oldChildRef : Option Int := match t.getNodeById old with
          | some _ => some old
          | none => none
        let t1 := updateNode t p
          (fun n => if left then { n with left := oldChildRef } else { n with right := oldChildRef })
        let t2 := match oldChildRef with
          | some o => updateNode t1 o (fun n => { n with parent := some p })
          | none => t1
        let t3 := updateNode t2 c (fun n => { n with parent := none })
        addToTempSlot t3 c
      | _, _ => t
    else t
  | DisconnectOp p c left wd, t =>
    if wd then
      match t.getNodeById p, t.getNodeById c with
      | some _, some _ =>
        let t1 := updateNode t p
          (fun n => if left then { n with left := some c } else { n with right := some c })
        let t2 := updateNode t1 c (fun n => { n with parent := some p })
        removeFromTempSlot t2 c
      | _, _ => t
    else t

/-- `clone` for tree operations: every variant copies all its fields. -/
def clone : TreeOp → TreeOp
  | SetRootOp id old ws => SetRootOp id old ws
  | CreateNodeOp v id wc => CreateNodeOp v id wc
  | DeleteNodeOp id sv wd => DeleteNodeOp id sv wd
  | ConnectOp p c left old wc => ConnectOp p c left old wc
  | DisconnectOp p c left wd => DisconnectOp p c left wd

/-- `CreateNodeOp` round trip: with a fresh id and a free temp slot (the
staged configuration), undo restores the exact tree. -/
theorem createNode_roundTrip (t : BinaryTreeStructure) (v id : Int) (wc : Bool)
    (hreg : t.registry id = none) (htmp : t.tempSlot = none) :
    undo (execute (CreateNodeOp v id wc) t).1 (execute (CreateNodeOp v id wc) t).2 = t := by
  cases t with
  | mk nid reg rt tmp cnt =>
    simp only at hreg htmp
    subst htmp
    simp only [execute, undo, BinaryTreeStructure.getNodeById,
      BinaryTreeStructure.registerNode, BinaryTreeStructure.addToTempSlot,
      BinaryTreeStructure.removeFromTempSlot, BinaryTreeStructure.unregisterNode,
      Function.update_same, if_true, Function.update_idem]
    rw [← hreg, Function.update_eq_self]
    simp

/-- `DeleteNodeOp` round trip: deleting the temp-slot occupant (a detached
node, no links) and undoing recreates the identical tree. -/
theorem deleteNode_roundTrip (t : BinaryTreeStructure) (id : Int) (n : TreeNode) (sv : Int) (wd : Bool)
    (hreg : t.registry id = some n) (hl : n.left = none) (hr : n.right = none)
    (hp : n.parent = none) (htmp : t.tempSlot = some id) :
    undo (execute (DeleteNodeOp id sv wd) t).1 (execute (DeleteNodeOp id sv wd) t).2 = t := by
  cases t with
  | mk nid reg rt tmp cnt =>
    cases n with
    | mk nv nl nr np =>
      simp only at hreg htmp hl hr hp
      subst htmp hl hr hp
      simp only [execute, BinaryTreeStructure.getNodeById]
      rw [hreg]
      simp only [undo, BinaryTreeStructure.registerNode, BinaryTreeStructure.addToTempSlot,
        BinaryTreeStructure.removeFromTempSlot, BinaryTreeStructure.unregisterNode,
        if_true, Function.update_idem, if_pos rfl]
      rw [← hreg, Function.update_eq_self]
      simp

/-- Updating two distinct keys and then writing both original values back
restores the function. -/
theorem update4_restore {α β : Type} [DecidableEq α] (f : α → β) {p c : α}
    (hpc : p ≠ c) (vp vc : β) :
    Function.update (Function.update (Function.update (Function.update f p vp) c vc) p (f p))
      c (f c) = f := by
  funext j
  by_cases hjc : j = c
  · subst hjc; rw [Function.update_same]
  · rw [Function.update_noteq hjc]
    by_cases hjp : j = p
    · subst hjp; rw [Function.update_same]
    · rw [Function.update_noteq hjp, Function.update_noteq hjc, Function.update_noteq hjp]

/-- `ConnectOp` round trip in the staged configuration: the child is the
temp-slot occupant, detached, and the target child slot is empty. -/
theorem connect_roundTrip (t : BinaryTreeStructure) (p c : Int) (left : Bool)
    (old0 : Int) (wc0 : Bool) (np nc : TreeNode)
    (hpc : p ≠ c)
    (hp : t.registry p = some np) (hc : t.registry c = some nc)
    (hslot : (if left then np.left else np.right) = none)
    (hcp : nc.parent = none) (htmp : t.tempSlot = some c)
    (hm1 : t.registry (-1) = none) :
    undo (execute (ConnectOp p c left old0 wc0) t).1 (execute (ConnectOp p c left old0 wc0) t).2
      = t := by
  have hpm : p ≠ -1 := fun h => by rw [h, hm1] at hp; exact Option.noConfusion hp
  have hcm : c ≠ -1 := fun h => by rw [h, hm1] at hc; exact Option.noConfusion hc
  cases t with
  | mk nid reg rt tmp cnt =>
    cases np with
    | mk pv pl pr pp =>
      cases nc with
      | mk cv cl cr cp =>
        simp only at hp hc htmp hm1 hcp
        subst htmp hcp
        cases left with
        | true =>
          simp only [if_true] at hslot
          subst hslot
          simp only [execute, undo, BinaryTreeStructure.getNodeById,
            BinaryTreeStructure.updateNode, BinaryTreeStructure.addToTempSlot,
            BinaryTreeStructure.removeFromTempSlot, hp, hc, Option.map_some',
            Function.update_same, Function.update_noteq hpc, Function.update_noteq (Ne.symm hpc),
            Function.update_noteq (Ne.symm hpm), Function.update_noteq (Ne.symm hcm),
            hm1, if_true, if_pos rfl]
          rw [← hp, ← hc, update4_restore reg hpc]
        | false =>
          simp only [if_false] at hslot
          subst hslot
          simp only [execute, undo, BinaryTreeStructure.getNodeById,
            BinaryTreeStructure.updateNode, BinaryTreeStructure.addToTempSlot,
            BinaryTreeStructure.removeFromTempSlot, hp, hc, Option.map_some',
            Function.update_same, Function.update_noteq hpc, Function.update_noteq (Ne.symm hpc),
            Function.update_noteq (Ne.symm hpm), Function.update_noteq (Ne.symm hcm),
            hm1, if_neg Bool.false_ne_true, if_pos rfl]
          rw [← hp, ← hc, update4_restore reg hpc]
          simp

/-- `DisconnectOp` round trip in the staged configuration: the child really
is connected on the named side and the temp slot is free. -/
theorem disconnect_roundTrip (t : BinaryTreeStructure) (p c : Int) (left : Bool)
    (wd0 : Bool) (np nc : TreeNode)
    (hpc : p ≠ c)
    (hp : t.registry p = some np) (hc : t.registry c = some nc)
    (hslot : (if left then np.left else np.right) = some c)
    (hcp : nc.parent = some p) (htmp : t.tempSlot = none) :
    undo (execute (DisconnectOp p c left wd0) t).1 (execute (DisconnectOp p c left wd0) t).2
      = t := by
  cases t with
  | mk nid reg rt tmp cnt =>
    cases np with
    | mk pv pl pr pp =>
      cases nc with
      | mk cv cl cr cp =>
        simp only at hp hc htmp hcp
        subst htmp hcp
        cases left with
        | true =>
          simp only [if_true] at hslot
          subst hslot
          simp only [execute, undo, BinaryTreeStructure.getNodeById,
            BinaryTreeStructure.updateNode, BinaryTreeStructure.addToTempSlot,
            BinaryTreeStructure.removeFromTempSlot, hp, hc, Option.map_some',
            Function.update_same, Function.update_noteq hpc, Function.update_noteq (Ne.symm hpc),
            if_true, if_pos rfl]
          rw [← hp, ← hc, update4_restore reg hpc]
        | false =>
          simp only [if_false] at hslot
          subst hslot
          simp only [execute, undo, BinaryTreeStructure.getNodeById,
            BinaryTreeStructure.updateNode, BinaryTreeStructure.addToTempSlot,
            BinaryTreeStructure.removeFromTempSlot, hp, hc, Option.map_some',
            Function.update_same, Function.update_noteq hpc, Function.update_noteq (Ne.symm hpc),
            if_neg Bool.false_ne_true, if_pos rfl]
          rw [← hp, ← hc, update4_restore reg hpc]
          simp

/-- `SetRootOp` round trip in the staged configuration: the node sits in the
temp slot, and the current root (when present) is a registered node. -/
theorem setRoot_roundTrip (t : BinaryTreeStructure) (id : Int) (old0 : Int) (ws0 : Bool)
    (n : TreeNode)
    (hreg : t.registry id = some n) (htmp : t.tempSlot = some id)
    (hroot : (t.root = none ∧ t.registry (-1) = none)
      ∨ ∃ r, t.root = some r ∧ (t.registry r).isSome) :
    undo (execute (SetRootOp id old0 ws0) t).1 (execute (SetRootOp id old0 ws0) t).2 = t := by
  cases t with
  | mk nid reg rt tmp cnt =>
    simp only at hreg htmp hroot
    subst htmp
    rcases hroot with ⟨hrt, hm1⟩ | ⟨r, hrt, hr⟩
    · subst hrt
      simp only [execute, undo, BinaryTreeStructure.getNodeById,
        BinaryTreeStructure.addToTempSlot, BinaryTreeStructure.removeFromTempSlot,
        hreg, hm1, if_true, if_pos rfl]
    · subst hrt
      rcases Option.isSome_iff_exists.mp hr with ⟨nr, hnr⟩
      simp only [execute, undo, BinaryTreeStructure.getNodeById,
        BinaryTreeStructure.addToTempSlot, BinaryTreeStructure.removeFromTempSlot,
        hreg, hnr, if_true, if_pos rfl]

end TreeOp

/-! ## `BinaryTreeInit` (`BinaryTreeOps.h` factory) -/

/-- Steps for the values after the root: for the `i`-th value (`i ≥ 1`),
create node `i` then connect it to node `(i-1)/2` — left child when `i` is
odd, right child when `i` is even. -/
def treeInitAux : Nat → List Int → List TreeOp
  | _, [] => []
  | i, v :: rest =>
    TreeOp.CreateNodeOp v (Int.ofNat i) false
      :: TreeOp.ConnectOp (Int.ofNat ((i - 1) / 2)) (Int.ofNat i) (i % 2 == 1) (-1) false
      :: treeInitAux (i + 1) rest

/-- `BinaryTreeInit::BinaryTreeInit`: clears the tree directly in the
constructor (untracked), allocates ids `0..n-1`, records create/set-root for
the root value and create/connect pairs for the rest.  Returns the recorded
steps together with the tree as the constructor leaves it. -/
def binaryTreeInit (t : BinaryTreeStructure) (values : List Int) :
    List TreeOp × BinaryTreeStructure :=
  ((match values with
    | [] => []
    | v :: rest =>
      TreeOp.CreateNodeOp v 0 false :: TreeOp.SetRootOp 0 (-1) false :: treeInitAux 1 rest),
    { t.clear with nextNodeId := Int.ofNat values.length })

/-! ## Operation manager (`OperationManager.h`) -/

/-- `OperationManager`: flat history of executed composites plus undo and
redo stacks of records (here a record is the cloned step list; the single
bound structure instance is threaded explicitly). -/
structure OperationManager (ω : Type) where
  executedOperations : List (List ω)
  undoStack : List (List ω)
  redoStack : List (List ω)

namespace OperationManager

def empty {ω : Type} : OperationManager ω := ⟨[], [], []⟩

/-- Modelled from the spec: `VisualizationController.h` calls a three
argument `executeOperation(structure, compositeOp, alreadyExecuted)` whose
definition is missing under `src/` (the snapshot's `OperationManager.h` only
has the two-argument form, which always executes).  Per spec §4.4: if not
already executed, run `executeAll`; then clear the redo stack, push a clone
of the (captured) composite onto the undo stack, and append the composite to
the flat history.  With `alreadyExecuted = false` this is exactly the
two-argument `OperationManager::executeOperation` of the snapshot. -/
def executeOperation {ω σ : Type} (e : ω → σ → ω × σ) (cloneOp : ω → ω)
    (m : OperationManager ω) (s : σ) (ops : List ω) (alreadyExecuted : Bool) :
    OperationManager ω × σ :=
  let p := if alreadyExecuted then (ops, s) else executeAll e ops s
  (⟨m.executedOperations ++ [p.1], (p.1.map cloneOp) :: m.undoStack, []⟩, p.2)

/-- `OperationManager::undo`: pop the top record, undo it against the
structure, move it to the redo stack. -/
def undo {ω σ : Type} (u : ω → σ → σ) (m : OperationManager ω) (s : σ) :
    OperationManager ω × σ × Bool :=
  match m.undoStack with
  | [] => (m, s, false)
  | r :: rest =>
    (⟨m.executedOperations, rest, r :: m.redoStack⟩, undoAllWith u r s, true)

/-- `OperationManager::redo`: pop the top redo record, re-execute it against
the structure (re-capturing inverse data), move it to the undo stack. -/
def redo {ω σ : Type} (e : ω → σ → ω × σ) (m : OperationManager ω) (s : σ) :
    OperationManager ω × σ × Bool :=
  match m.redoStack with
  | [] => (m, s, false)
  | r :: rest =>
    let p := executeAll e r s
    (⟨m.executedOperations, p.1 :: m.undoStack, rest⟩, p.2, true)

end OperationManager

/-! ## Stepping controller (`VisualizationController.h`)

`renderControls`' Step button executes the atomic operation at the cursor
(mutating the staged composite's captures in place), advances the cursor,
and on completion hands the composite to the manager with
`alreadyExecuted = true`. -/

/-- The cursor-driven stepping loop: each step executes
`stagedOperation->operations[currentAtomicStep]` and advances the cursor;
fuel bounds the number of steps. -/
def stepLoop {ω σ : Type} (e : ω → σ → ω × σ) :
    Nat → List ω → Nat → σ → List ω × σ
  | 0, ops, _, s => (ops, s)
  | fuel + 1, ops, cursor, s =>
    match ops.get? cursor with
    | none => (ops, s)
    | some op =>
      let p := e op s
      stepLoop e fuel (ops.set cursor p.1) (cursor + 1) p.2

/-- Pressing Step until the cursor reaches the end of the staged composite. -/
def runStepping {ω σ : Type} (e : ω → σ → ω × σ) (ops : List ω) (s : σ) : List ω × σ :=
  stepLoop e ops.length ops 0 s

theorem get?_append_cons {α : Type} (pre : List α) (x : α) (post : List α) :
    (pre ++ x :: post).get? pre.length = some x := by
  induction pre with
  | nil => rfl
  | cons a l ih => simpa using ih

theorem set_append_cons {α : Type} (pre : List α) (x y : α) (post : List α) :
    (pre ++ x :: post).set pre.length y = pre ++ y :: post := by
  induction pre with
  | nil => rfl
  | cons a l ih => simp [ih]

/-- The stepping loop, started at the cursor position `pre.length` with fuel
`post.length`, executes exactly the remaining steps in order. -/
theorem stepLoop_spec {ω σ : Type} (e : ω → σ → ω × σ) (post : List ω) :
    ∀ (pre : List ω) (s : σ),
      stepLoop e post.length (pre ++ post) pre.length s
        = (pre ++ (executeAll e post s).1, (executeAll e post s).2) := by
  induction post with
  | nil => intro pre s; simp [stepLoop]
  | cons op rest ih =>
    intro pre s
    show stepLoop e (rest.length + 1) (pre ++ op :: rest) pre.length s = _
    rw [stepLoop, get?_append_cons]
    simp only
    rw [set_append_cons]
    have hlen : pre.length + 1 = (pre ++ [(e op s).1]).length := by simp
    have hsplit : pre ++ (e op s).1 :: rest = (pre ++ [(e op s).1]) ++ rest := by simp
    rw [hsplit, hlen, ih (pre ++ [(e op s).1]) (e op s).2]
    simp [executeAll_cons]

/-- Stepping through the whole staged composite computes exactly
`executeAll`. -/
theorem runStepping_eq_executeAll {ω σ : Type} (e : ω → σ → ω × σ) (ops : List ω) (s : σ) :
    runStepping e ops s = executeAll e ops s := by
  have h := stepLoop_spec e ops [] s
  simpa [runStepping] using h

/-! ## Claim theorems -/

/-- C1: Stepping equivalence.  For every composite operation and every
starting structure state, stepping through its atomic operations one at a
time until the cursor reaches the end and then handing the composite to the
Operation Manager with `alreadyExecuted = true` (which must not, and here
does not, re-execute the steps) leaves the structure in exactly the state
that calling `executeAll` once through `executeOperation(…, false)`
produces. -/
theorem C1_stepping_equivalence {ω σ : Type} (e : ω → σ → ω × σ) (cloneOp : ω → ω)
    (m : OperationManager ω) (ops : List ω) (s : σ) :
    (OperationManager.executeOperation e cloneOp m
        (runStepping e ops s).2 (runStepping e ops s).1 true).2
      = (OperationManager.executeOperation e cloneOp m s ops false).2
    ∧ ∀ (s' : σ) (ops' : List ω),
        (OperationManager.executeOperation e cloneOp m s' ops' true).2 = s' := by
  constructor
  · rw [runStepping_eq_executeAll]
    rfl
  · intro s' ops'
    rfl

/-- C2 counterexample: the round-trip claim fails for a `ResizeOp` that
shrinks the array.  On the one-element array `[7]`, executing `ResizeOp(0)`
and undoing it yields `[0]`: the grow-back zero-fills the re-exposed cell,
so even the observable state is not restored. -/
theorem C2_resize_shrink_counterexample :
    ¬ ArrayStructure.Obs
        (ArrayOp.undo (ArrayOp.execute (.ResizeOp 0 0) (ArrayStructure.ofList [7])).1
          (ArrayOp.execute (.ResizeOp 0 0) (ArrayStructure.ofList [7])).2)
        (ArrayStructure.ofList [7]) := by decide

/-- Concrete two-element array used to witness the C2 round trips. -/
def c2Arr : ArrayStructure := ArrayStructure.ofList [5, 2]

/-- Concrete tree with one registered root node and a free temp slot. -/
def c2TreeFresh : BinaryTreeStructure :=
  ⟨1, fun j => if j = 0 then some ⟨10, none, none, none⟩ else none, some 0, none, 1⟩

/-- Concrete tree whose temp slot holds the detached node `1`. -/
def c2TreeTemp : BinaryTreeStructure :=
  ⟨2, fun j => if j = 0 then some ⟨10, none, none, none⟩
    else if j = 1 then some ⟨5, none, none, none⟩ else none, some 0, some 1, 2⟩

/-- Concrete tree where node `1` is connected as left child of the root. -/
def c2TreeConn : BinaryTreeStructure :=
  ⟨2, fun j => if j = 0 then some ⟨10, some 1, none, none⟩
    else if j = 1 then some ⟨5, none, none, some 0⟩ else none, some 0, none, 2⟩

/-- C2 (amended): atomic round trip `undo(execute(S)) = S` holds for
`WriteOp` and `MoveOp` at indices within capacity, for `PushOp` and `PopOp`
on every stack, and for the tree operations in their staged configurations
(fresh id and free temp slot for `CreateNodeOp`; a detached temp-slot
occupant for `DeleteNodeOp`; temp-slot child, empty target slot for
`ConnectOp`; a really-connected child and free temp slot for `DisconnectOp`;
a temp-slot node and registered-or-absent old root for `SetRootOp`).  For
`ResizeOp` the round trip holds — observably — only when the resize does not
shrink or every truncated live cell is zero; a shrinking resize zero-fills
the re-exposed cells on undo (see the counterexample). -/
theorem C2_atomic_roundTrip :
    (∀ (a : ArrayStructure) (i : Nat) (o v : Int), i < ArrayStructure.maxSize →
        ArrayOp.undo (ArrayOp.execute (.WriteOp i o v) a).1
          (ArrayOp.execute (.WriteOp i o v) a).2 = a)
    ∧ (∀ (a : ArrayStructure) (f t : Nat) (o : Int),
        f < ArrayStructure.maxSize → t < ArrayStructure.maxSize →
        ArrayOp.undo (ArrayOp.execute (.MoveOp f t o) a).1
          (ArrayOp.execute (.MoveOp f t o) a).2 = a)
    ∧ (∀ (a : ArrayStructure) (n : Nat), a.size ≤ ArrayStructure.maxSize →
        (a.size ≤ n ∨ ∀ j, min n ArrayStructure.maxSize ≤ j → j < a.size → a.read j = 0) →
        ArrayStructure.Obs
          (ArrayOp.undo (ArrayOp.execute (.ResizeOp n 0) a).1
            (ArrayOp.execute (.ResizeOp n 0) a).2) a)
    ∧ (∀ (s : List Int) (v : Int) (b : Bool),
        StackOp.undo (StackOp.execute (.PushOp v b) s).1
          (StackOp.execute (.PushOp v b) s).2 = s)
    ∧ (∀ (s : List Int) (pv : Int) (b : Bool),
        StackOp.undo (StackOp.execute (.PopOp pv b) s).1
          (StackOp.execute (.PopOp pv b) s).2 = s)
    ∧ (∀ (t : BinaryTreeStructure) (v id : Int) (wc : Bool),
        t.registry id = none → t.tempSlot = none →
        TreeOp.undo (TreeOp.execute (.CreateNodeOp v id wc) t).1
          (TreeOp.execute (.CreateNodeOp v id wc) t).2 = t)
    ∧ (∀ (t : BinaryTreeStructure) (id : Int) (n : TreeNode) (sv : Int) (wd : Bool),
        t.registry id = some n → n.left = none → n.right = none → n.parent = none →
        t.tempSlot = some id →
        TreeOp.undo (TreeOp.execute (.DeleteNodeOp id sv wd) t).1
          (TreeOp.execute (.DeleteNodeOp id sv wd) t).2 = t)
    ∧ (∀ (t : BinaryTreeStructure) (p c : Int) (left : Bool) (old0 : Int) (wc0 : Bool)
        (np nc : TreeNode), p ≠ c → t.registry p = some np → t.registry c = some nc →
        (if left then np.left else np.right) = none → nc.parent = none →
        t.tempSlot = some c → t.registry (-1) = none →
        TreeOp.undo (TreeOp.execute (.ConnectOp p c left old0 wc0) t).1
          (TreeOp.execute (.ConnectOp p c left old0 wc0) t).2 = t)
    ∧ (∀ (t : BinaryTreeStructure) (p c : Int) (left : Bool) (wd0 : Bool) (np nc : TreeNode),
        p ≠ c → t.registry p = some np → t.registry c = some nc →
        (if left then np.left else np.right) = some c → nc.parent = some p →
        t.tempSlot = none →
        TreeOp.undo (TreeOp.execute (.DisconnectOp p c left wd0) t).1
          (TreeOp.execute (.DisconnectOp p c left wd0) t).2 = t)
    ∧ (∀ (t : BinaryTreeStructure) (id old0 : Int) (ws0 : Bool) (n : TreeNode),
        t.registry id = some n → t.tempSlot = some id →
        ((t.root = none ∧ t.registry (-1) = none)
          ∨ ∃ r, t.root = some r ∧ (t.registry r).isSome) →
        TreeOp.undo (TreeOp.execute (.SetRootOp id old0 ws0) t).1
          (TreeOp.execute (.SetRootOp id old0 ws0) t).2 = t) := by
  refine ⟨?_, ?_, ?_, ?_, ?_, ?_, ?_, ?_, ?_, ?_⟩
  · intro a i o v _
    exact ArrayOp.pointwiseExact_WriteOp i o v a
  · intro a f t o _ _
    exact ArrayOp.pointwiseExact_MoveOp f t o a
  · intro a n h1 h2
    exact ArrayOp.resize_roundTrip_obs a n h1 h2
  · intro s v b
    exact StackOp.pointwiseExact_PushOp v b s
  · intro s pv b
    exact StackOp.pointwiseExact_PopOp pv b s
  · intro t v id wc h1 h2
    exact TreeOp.createNode_roundTrip t v id wc h1 h2
  · intro t id n sv wd h1 h2 h3 h4 h5
    exact TreeOp.deleteNode_roundTrip t id n sv wd h1 h2 h3 h4 h5
  · intro t p c left old0 wc0 np nc h1 h2 h3 h4 h5 h6 h7
    exact TreeOp.connect_roundTrip t p c left old0 wc0 np nc h1 h2 h3 h4 h5 h6 h7
  · intro t p c left wd0 np nc h1 h2 h3 h4 h5 h6
    exact TreeOp.disconnect_roundTrip t p c left wd0 np nc h1 h2 h3 h4 h5 h6
  · intro t id old0 ws0 n h1 h2 h3
    exact TreeOp.setRoot_roundTrip t id old0 ws0 n h1 h2 h3

/-- C2 witness: every round-trip conjunct of `C2_atomic_roundTrip`
instantiated at a concrete structure, with every hypothesis discharged by
computation. -/
theorem C2_atomic_roundTrip_witness :
    (ArrayOp.undo (ArrayOp.execute (.WriteOp 0 0 9) c2Arr).1
        (ArrayOp.execute (.WriteOp 0 0 9) c2Arr).2 = c2Arr)
    ∧ (ArrayOp.undo (ArrayOp.execute (.MoveOp 0 1 0) c2Arr).1
        (ArrayOp.execute (.MoveOp 0 1 0) c2Arr).2 = c2Arr)
    ∧ ArrayStructure.Obs
        (ArrayOp.undo (ArrayOp.execute (.ResizeOp 3 0) c2Arr).1
          (ArrayOp.execute (.ResizeOp 3 0) c2Arr).2) c2Arr
    ∧ (StackOp.undo (StackOp.execute (.PushOp 7 false) [3]).1
        (StackOp.execute (.PushOp 7 false) [3]).2 = [3])
    ∧ (StackOp.undo (StackOp.execute (.PopOp 0 true) [3]).1
        (StackOp.execute (.PopOp 0 true) [3]).2 = [3])
    ∧ (TreeOp.undo (TreeOp.execute (.CreateNodeOp 5 1 false) c2TreeFresh).1
        (TreeOp.execute (.CreateNodeOp 5 1 false) c2TreeFresh).2 = c2TreeFresh)
    ∧ (TreeOp.undo (TreeOp.execute (.DeleteNodeOp 1 0 false) c2TreeTemp).1
        (TreeOp.execute (.DeleteNodeOp 1 0 false) c2TreeTemp).2 = c2TreeTemp)
    ∧ (TreeOp.undo (TreeOp.execute (.ConnectOp 0 1 true (-1) false) c2TreeTemp).1
        (TreeOp.execute (.ConnectOp 0 1 true (-1) false) c2TreeTemp).2 = c2TreeTemp)
    ∧ (TreeOp.undo (TreeOp.execute (.DisconnectOp 0 1 true false) c2TreeConn).1
        (TreeOp.execute (.DisconnectOp 0 1 true false) c2TreeConn).2 = c2TreeConn)
    ∧ (TreeOp.undo (TreeOp.execute (.SetRootOp 1 (-1) false) c2TreeTemp).1
        (TreeOp.execute (.SetRootOp 1 (-1) false) c2TreeTemp).2 = c2TreeTemp) :=
  ⟨C2_atomic_roundTrip.1 c2Arr 0 0 9 (by decide),
    C2_atomic_roundTrip.2.1 c2Arr 0 1 0 (by decide) (by decide),
    C2_atomic_roundTrip.2.2.1 c2Arr 3 (by decide) (Or.inl (by decide)),
    C2_atomic_roundTrip.2.2.2.1 [3] 7 false,
    C2_atomic_roundTrip.2.2.2.2.1 [3] 0 true,
    C2_atomic_roundTrip.2.2.2.2.2.1 c2TreeFresh 5 1 false (by decide) (by decide),
    C2_atomic_roundTrip.2.2.2.2.2.2.1 c2TreeTemp 1 ⟨5, none, none, none⟩ 0 false
      (by decide) (by decide) (by decide) (by decide) (by decide),
    C2_atomic_roundTrip.2.2.2.2.2.2.2.1 c2TreeTemp 0 1 true (-1) false
      ⟨10, none, none, none⟩ ⟨5, none, none, none⟩ (by decide) (by decide) (by decide)
      (by decide) (by decide) (by decide) (by decide),
    C2_atomic_roundTrip.2.2.2.2.2.2.2.2.1 c2TreeConn 0 1 true false
      ⟨10, some 1, none, none⟩ ⟨5, none, none, some 0⟩ (by decide) (by decide) (by decide)
      (by decide) (by decide) (by decide),
    C2_atomic_roundTrip.2.2.2.2.2.2.2.2.2 c2TreeTemp 1 (-1) false ⟨5, none, none, none⟩
      (by decide) (by decide) (Or.inr ⟨0, rfl, by decide⟩)⟩

/-- C3: Redo-after-undo through deep clones — evaluation at the failing
input.  `MoveOp::clone` drops the captured old value (`clone (MoveOp 0 2 8)
= MoveOp 0 2 0`), contradicting the deep-copy contract, and for the
composite `[Move(0→2), Move(1→2)]` executed through the manager on `[5,2,8]`
the sequence `undo(); redo()` leaves the array reading `0` at index 0 where
the state immediately after the original execution read `5`: redo-after-undo
does not reproduce the original post-execution state. -/
theorem C3_redo_after_undo_failing_input :
    (ArrayOp.clone (ArrayOp.MoveOp 0 2 8) = ArrayOp.MoveOp 0 2 0)
    ∧ ((OperationManager.executeOperation ArrayOp.execute ArrayOp.clone
          OperationManager.empty (ArrayStructure.ofList [5, 2, 8])
          [ArrayOp.MoveOp 0 2 0, ArrayOp.MoveOp 1 2 0] false).2.read 0 = 5)
    ∧ ((OperationManager.redo ArrayOp.execute
          (OperationManager.undo ArrayOp.undo
            (OperationManager.executeOperation ArrayOp.execute ArrayOp.clone
              OperationManager.empty (ArrayStructure.ofList [5, 2, 8])
              [ArrayOp.MoveOp 0 2 0, ArrayOp.MoveOp 1 2 0] false).1
            (OperationManager.executeOperation ArrayOp.execute ArrayOp.clone
              OperationManager.empty (ArrayStructure.ofList [5, 2, 8])
              [ArrayOp.MoveOp 0 2 0, ArrayOp.MoveOp 1 2 0] false).2).1
          (OperationManager.undo ArrayOp.undo
            (OperationManager.executeOperation ArrayOp.execute ArrayOp.clone
              OperationManager.empty (ArrayStructure.ofList [5, 2, 8])
              [ArrayOp.MoveOp 0 2 0, ArrayOp.MoveOp 1 2 0] false).1
            (OperationManager.executeOperation ArrayOp.execute ArrayOp.clone
              OperationManager.empty (ArrayStructure.ofList [5, 2, 8])
              [ArrayOp.MoveOp 0 2 0, ArrayOp.MoveOp 1 2 0] false).2).2.1).2.1.read 0 = 0)
    ∧ ¬ ArrayStructure.Obs
        (OperationManager.redo ArrayOp.execute
          (OperationManager.undo ArrayOp.undo
            (OperationManager.executeOperation ArrayOp.execute ArrayOp.clone
              OperationManager.empty (ArrayStructure.ofList [5, 2, 8])
              [ArrayOp.MoveOp 0 2 0, ArrayOp.MoveOp 1 2 0] false).1
            (OperationManager.executeOperation ArrayOp.execute ArrayOp.clone
              OperationManager.empty (ArrayStructure.ofList [5, 2, 8])
              [ArrayOp.MoveOp 0 2 0, ArrayOp.MoveOp 1 2 0] false).2).1
          (OperationManager.undo ArrayOp.undo
            (OperationManager.executeOperation ArrayOp.execute ArrayOp.clone
              OperationManager.empty (ArrayStructure.ofList [5, 2, 8])
              [ArrayOp.MoveOp 0 2 0, ArrayOp.MoveOp 1 2 0] false).1
            (OperationManager.executeOperation ArrayOp.execute ArrayOp.clone
              OperationManager.empty (ArrayStructure.ofList [5, 2, 8])
              [ArrayOp.MoveOp 0 2 0, ArrayOp.MoveOp 1 2 0] false).2).2.1).2.1
        (OperationManager.executeOperation ArrayOp.execute ArrayOp.clone
          OperationManager.empty (ArrayStructure.ofList [5, 2, 8])
          [ArrayOp.MoveOp 0 2 0, ArrayOp.MoveOp 1 2 0] false).2 := by
  refine ⟨rfl, by decide, by decide, by decide⟩

/-- C4 counterexample: an out-of-range `MoveOp` does not leave the structure
unmodified — `Move(10→2)` on `[5,2,8,1,9]` (size 5) copies the hidden cell
10 (holding 0) over the live cell 2, observably changing the array; no
failure flag exists and no exception is raised. -/
theorem C4_out_of_range_move_mutates :
    ¬ ArrayStructure.Obs
        (ArrayOp.execute (.MoveOp 10 2 0) (ArrayStructure.ofList [5, 2, 8, 1, 9])).2
        (ArrayStructure.ofList [5, 2, 8, 1, 9])
    ∧ (ArrayOp.execute (.MoveOp 10 2 0) (ArrayStructure.ofList [5, 2, 8, 1, 9])).2.read 2 = 0 := by
  decide

/-- C4 (amended): `PopOp` on an empty stack is detected — the `wasEmpty`
flag is recorded, the stack is left unmodified, no exception is raised, and
the corresponding undo is a no-op.  `WriteOp` and `MoveOp`, by contrast,
perform no index validation and record no failure flag: execute always
writes the backing buffer cell (an out-of-range `WriteOp` changes hidden
state only, while a `MoveOp` whose destination is in range always overwrites
it — with the hidden cell's content when the source is out of range), and
`WriteOp`'s undo unconditionally writes the captured value back. -/
theorem C4_invalid_parameter :
    (∀ (pv : Int) (b : Bool), StackOp.execute (.PopOp pv b) [] = (.PopOp pv true, []))
    ∧ (∀ (s : List Int) (pv : Int), StackOp.undo (.PopOp pv true) s = s)
    ∧ (∀ (a : ArrayStructure) (i : Nat) (o v : Int),
        ((ArrayOp.execute (.WriteOp i o v) a).2).data i = v)
    ∧ (∀ (a : ArrayStructure) (i : Nat) (o v : Int), a.size ≤ i →
        ArrayStructure.Obs (ArrayOp.execute (.WriteOp i o v) a).2 a)
    ∧ (∀ (a : ArrayStructure) (f t : Nat) (o : Int),
        ((ArrayOp.execute (.MoveOp f t o) a).2).read t = a.data f)
    ∧ (∀ (a : ArrayStructure) (i : Nat) (o v : Int),
        (ArrayOp.undo (.WriteOp i o v) a).data i = o) := by
  refine ⟨?_, ?_, ?_, ?_, ?_, ?_⟩
  · intro pv b
    rfl
  · intro s pv
    simp [StackOp.undo]
  · intro a i o v
    simp [ArrayOp.execute, ArrayStructure.write, Function.update_same]
  · intro a i o v h
    refine ⟨rfl, fun j hj => ?_⟩
    have hs : ((ArrayOp.execute (.WriteOp i o v) a).2).size = a.size := rfl
    exact ArrayStructure.read_write_other a (by omega) v
  · intro a f t o
    simp [ArrayOp.execute, ArrayStructure.read, ArrayStructure.write, Function.update_same]
  · intro a i o v
    simp [ArrayOp.undo, ArrayStructure.write, Function.update_same]

/-- C4 witness: `C4_invalid_parameter` instantiated at concrete inputs, with
its out-of-range hypothesis discharged. -/
theorem C4_invalid_parameter_witness :
    (StackOp.execute (.PopOp 0 true) [] = (.PopOp 0 true, []))
    ∧ (StackOp.undo (.PopOp 9 true) [4] = [4])
    ∧ ArrayStructure.Obs
        (ArrayOp.execute (.WriteOp 10 0 7) (ArrayStructure.ofList [5, 2])).2
        (ArrayStructure.ofList [5, 2])
    ∧ ((ArrayOp.execute (.WriteOp 10 0 7) (ArrayStructure.ofList [5, 2])).2.data 10 = 7) :=
  ⟨C4_invalid_parameter.1 0 true,
    C4_invalid_parameter.2.1 [4] 9,
    C4_invalid_parameter.2.2.2.1 (ArrayStructure.ofList [5, 2]) 10 0 7 (by decide),
    C4_invalid_parameter.2.2.1 (ArrayStructure.ofList [5, 2]) 10 0 7⟩

/-- C5 counterexample: staging is not mutation-free.  Constructing
`StackInit` on the stack `[10]` (before any `step()`) already clears the
stack: the structure reads `[]`, not `[10]`. -/
theorem C5_stackInit_clears_at_construction :
    (stackInit [10] [1, 2, 3, 4, 5]).2 = []
    ∧ ¬ ((stackInit [10] [1, 2, 3, 4, 5]).2 = [10]) := by
  decide

/-- C5 (amended): no atomic operation executes before the first explicit
`step()` call — staging only records unexecuted steps (the recorded push
flags are still `false`), entering Stepping with no fuel consumed changes
nothing, and the first `step()` executes exactly the first atomic operation.
However, `StackInit` and `BinaryTreeInit` mutate the structure during
factory construction itself, outside the step list: `StackInit`'s
constructor pop-clears the stack and `BinaryTreeInit`'s constructor clears
the whole tree (registry emptied, root and temp slot reset, node count 0)
before a single step has run. -/
theorem C5_staging :
    (∀ (s values : List Int), (stackInit s values).2 = [])
    ∧ (∀ (s values : List Int),
        (stackInit s values).1 = values.map (fun v => StackOp.PushOp v false))
    ∧ (∀ (t : BinaryTreeStructure) (values : List Int),
        (binaryTreeInit t values).2.nodeCount = 0
        ∧ (binaryTreeInit t values).2.root = none
        ∧ (binaryTreeInit t values).2.tempSlot = none
        ∧ ∀ id, (binaryTreeInit t values).2.registry id = none)
    ∧ (∀ (ops : List StackOp) (s : List Int), stepLoop StackOp.execute 0 ops 0 s = (ops, s))
    ∧ (∀ (op : StackOp) (rest : List StackOp) (s : List Int),
        stepLoop StackOp.execute 1 (op :: rest) 0 s
          = ((StackOp.execute op s).1 :: rest, (StackOp.execute op s).2)) := by
  refine ⟨?_, ?_, ?_, ?_, ?_⟩
  · intro s values
    exact stackClearLoop_eq_nil s
  · intro s values
    rfl
  · intro t values
    exact ⟨rfl, rfl, rfl, fun _ => rfl⟩
  · intro ops s
    rfl
  · intro op rest s
    rfl

/-- The fresh (empty) tree the visualizer starts with. -/
def initialTree : BinaryTreeStructure := ⟨0, fun _ => none, none, none, 0⟩

/-- The `BinaryTreeInit` composite for the worked example
`[10, 5, 15, 3, 7, 12, 20]`: recorded steps plus post-construction tree. -/
def tree7 : List TreeOp × BinaryTreeStructure :=
  binaryTreeInit initialTree [10, 5, 15, 3, 7, 12, 20]

/-- The worked example executed: captured steps and resulting tree. -/
def tree7Exec : List TreeOp × BinaryTreeStructure :=
  executeAll TreeOp.execute tree7.1 tree7.2

/-- The worked example executed and then fully undone. -/
def tree7Undo : BinaryTreeStructure :=
  undoAllWith TreeOp.undo tree7Exec.1 tree7Exec.2

/-- C6 counterexample: composite reversibility fails for `ArrayDelete` at
the tail index.  Deleting index 4 of `[5,2,8,1,9]` records no moves, only
`ResizeOp(4)`; its undo grows back with zero-fill, so
`undoAll(executeAll(S))` reads `[5,2,8,1,0]`, not `[5,2,8,1,9]`. -/
theorem C6_tail_delete_counterexample :
    ¬ ArrayStructure.Obs
        (undoAllWith ArrayOp.undo
          (executeAll ArrayOp.execute
            (arrayDelete (ArrayStructure.ofList [5, 2, 8, 1, 9]) 4)
            (ArrayStructure.ofList [5, 2, 8, 1, 9])).1
          (executeAll ArrayOp.execute
            (arrayDelete (ArrayStructure.ofList [5, 2, 8, 1, 9]) 4)
            (ArrayStructure.ofList [5, 2, 8, 1, 9])).2)
        (ArrayStructure.ofList [5, 2, 8, 1, 9]) := by
  decide

/-- C6 (amended): the undo pass runs the step sequence strictly back to
front (LIFO over steps), and `undoAll(executeAll(S)) = S` holds for
`ArrayInsert` from every state, for `ArrayDelete` at every non-tail index,
and for every stack composite from every stack.  For `ArrayDelete` at the
tail index the undo restores the size and all surviving cells but
zero-fills the re-exposed last cell (see the counterexample).
`BinaryTreeInit` on the worked example `[10,5,15,3,7,12,20]` restores its
staged (cleared) state exactly: empty registry, no root, no temp node,
node count 0. -/
theorem C6_composite_reversibility :
    (∀ (ω σ : Type) (u : ω → σ → σ) (ops : List ω) (op : ω) (s : σ),
        undoAllWith u (ops ++ [op]) s = undoAllWith u ops (u op s))
    ∧ (∀ (ω σ : Type) (u : ω → σ → σ) (ops : List ω) (s : σ),
        undoAllWith u ops s = ops.reverse.foldl (fun st op => u op st) s)
    ∧ (∀ (a : ArrayStructure) (index : Nat) (value : Int),
        ArrayStructure.Obs
          (undoAllWith ArrayOp.undo
            (executeAll ArrayOp.execute (arrayInsert a index value) a).1
            (executeAll ArrayOp.execute (arrayInsert a index value) a).2) a)
    ∧ (∀ (a : ArrayStructure) (index : Nat),
        a.size ≤ ArrayStructure.maxSize → index + 2 ≤ a.size →
        undoAllWith ArrayOp.undo
          (executeAll ArrayOp.execute (arrayDelete a index) a).1
          (executeAll ArrayOp.execute (arrayDelete a index) a).2 = a)
    ∧ (∀ (a : ArrayStructure) (index : Nat),
        a.size ≤ ArrayStructure.maxSize → 0 < a.size → index + 1 = a.size →
        undoAllWith ArrayOp.undo
          (executeAll ArrayOp.execute (arrayDelete a index) a).1
          (executeAll ArrayOp.execute (arrayDelete a index) a).2
          = a.write (a.size - 1) 0)
    ∧ (∀ (ops : List StackOp) (s : List Int),
        undoAllWith StackOp.undo (executeAll StackOp.execute ops s).1
          (executeAll StackOp.execute ops s).2 = s)
    ∧ (tree7Undo.nodeCount = 0 ∧ tree7Undo.root = none ∧ tree7Undo.tempSlot = none
        ∧ ∀ i : Nat, i < 7 → tree7Undo.registry (Int.ofNat i) = none) := by
  refine ⟨?_, ?_, ?_, ?_, ?_, ?_, ?_⟩
  · intro ω σ u ops op s
    exact undoAllWith_append_singleton u ops op s
  · intro ω σ u ops s
    exact undoAllWith_eq_foldl_reverse u ops s
  · intro a index value
    exact arrayInsert_roundTrip a index value
  · intro a index h1 h2
    exact arrayDelete_roundTrip a index h1 h2
  · intro a index h1 h2 h3
    exact arrayDelete_tail a index h1 h2 h3
  · intro ops s
    exact undoAll_executeAll_of_chainExact
      (chainExact_of_pointwise (fun op _ => StackOp.pointwiseExact op) s)
  · exact ⟨by decide, by decide, by decide, by decide⟩

/-- C6 witness: reversibility instantiated at the worked array and stack
examples, with every hypothesis discharged by computation. -/
theorem C6_composite_reversibility_witness :
    ArrayStructure.Obs
      (undoAllWith ArrayOp.undo
        (executeAll ArrayOp.execute
          (arrayInsert (ArrayStructure.ofList [5, 2, 8, 1, 9]) 2 99)
          (ArrayStructure.ofList [5, 2, 8, 1, 9])).1
        (executeAll ArrayOp.execute
          (arrayInsert (ArrayStructure.ofList [5, 2, 8, 1, 9]) 2 99)
          (ArrayStructure.ofList [5, 2, 8, 1, 9])).2)
      (ArrayStructure.ofList [5, 2, 8, 1, 9])
    ∧ undoAllWith ArrayOp.undo
        (executeAll ArrayOp.execute
          (arrayDelete (ArrayStructure.ofList [5, 2, 8, 1, 9]) 0)
          (ArrayStructure.ofList [5, 2, 8, 1, 9])).1
        (executeAll ArrayOp.execute
          (arrayDelete (ArrayStructure.ofList [5, 2, 8, 1, 9]) 0)
          (ArrayStructure.ofList [5, 2, 8, 1, 9])).2
      = ArrayStructure.ofList [5, 2, 8, 1, 9]
    ∧ undoAllWith StackOp.undo
        (executeAll StackOp.execute [StackOp.PushOp 10 false, StackOp.PushOp 20 false,
          StackOp.PopOp 0 true] []).1
        (executeAll StackOp.execute [StackOp.PushOp 10 false, StackOp.PushOp 20 false,
          StackOp.PopOp 0 true] []).2 = [] :=
  ⟨C6_composite_reversibility.2.2.1 (ArrayStructure.ofList [5, 2, 8, 1, 9]) 2 99,
    C6_composite_reversibility.2.2.2.1 (ArrayStructure.ofList [5, 2, 8, 1, 9]) 0
      (by decide) (by decide),
    C6_composite_reversibility.2.2.2.2.2.1
      [StackOp.PushOp 10 false, StackOp.PushOp 20 false, StackOp.PopOp 0 true] []⟩

/-- C7 counterexample: the insert decomposition claim fails on a full
array.  On an array of size `N = 100` the factory's capacity guard yields an
empty composite — zero steps instead of the claimed
`1 + (N - i) + 1 = 102`. -/
theorem C7_insert_full_counterexample :
    arrayInsert (ArrayStructure.ofList (List.replicate 100 0)) 0 42 = []
    ∧ (arrayInsert (ArrayStructure.ofList (List.replicate 100 0)) 0 42).length ≠ 102 := by
  decide

/-- C7 (amended): for an array of size `N < 100` and insertion index
`i ≤ N`, the insert factory produces exactly one `Resize(N+1)` step, then
`Move(k, k+1)` steps for `k = N-1` down to `i`, then one `Write(i, value)`
step; on a full array (`N = 100`) it produces no steps at all.  Executing
the composite on `[5,2,8,1,9]` with value 99 at index 2 yields
`[5,2,99,8,1,9]`, and undoing it restores `[5,2,8,1,9]` exactly, including
the original size. -/
theorem C7_array_insert :
    (∀ (a : ArrayStructure) (index : Nat) (value : Int),
        a.size < ArrayStructure.maxSize → index ≤ a.size →
        arrayInsert a index value
          = ArrayOp.ResizeOp (a.size + 1) 0 ::
              ((List.range (a.size - index)).map
                  (fun k => ArrayOp.MoveOp (a.size - 1 - k) (a.size - k) 0)
                ++ [ArrayOp.WriteOp index 0 value]))
    ∧ (∀ (a : ArrayStructure) (index : Nat) (value : Int),
        ArrayStructure.maxSize ≤ a.size → arrayInsert a index value = [])
    ∧ ArrayStructure.Obs
        (executeAll ArrayOp.execute
          (arrayInsert (ArrayStructure.ofList [5, 2, 8, 1, 9]) 2 99)
          (ArrayStructure.ofList [5, 2, 8, 1, 9])).2
        (ArrayStructure.ofList [5, 2, 99, 8, 1, 9])
    ∧ ArrayStructure.Obs
        (undoAllWith ArrayOp.undo
          (executeAll ArrayOp.execute
            (arrayInsert (ArrayStructure.ofList [5, 2, 8, 1, 9]) 2 99)
            (ArrayStructure.ofList [5, 2, 8, 1, 9])).1
          (executeAll ArrayOp.execute
            (arrayInsert (ArrayStructure.ofList [5, 2, 8, 1, 9]) 2 99)
            (ArrayStructure.ofList [5, 2, 8, 1, 9])).2)
        (ArrayStructure.ofList [5, 2, 8, 1, 9]) := by
  refine ⟨?_, ?_, by decide, by decide⟩
  · intro a index value h1 h2
    unfold arrayInsert
    rw [if_neg (not_le.mpr h1), descMoves_eq_map,
      show index + (a.size - index) = a.size from by omega]
  · intro a index value h
    unfold arrayInsert
    rw [if_pos h]

/-- C7 witness: the step-list shape instantiated on `[5,2,8,1,9]` at index
2 and the empty composite on a full array, hypotheses discharged by
computation. -/
theorem C7_array_insert_witness :
    arrayInsert (ArrayStructure.ofList [5, 2, 8, 1, 9]) 2 99
      = ArrayOp.ResizeOp 6 0 ::
          ((List.range 3).map (fun k => ArrayOp.MoveOp (4 - k) (5 - k) 0)
            ++ [ArrayOp.WriteOp 2 0 99])
    ∧ arrayInsert (ArrayStructure.ofList (List.replicate 100 3)) 5 1 = [] :=
  ⟨C7_array_insert.1 (ArrayStructure.ofList [5, 2, 8, 1, 9]) 2 99 (by decide) (by decide),
    C7_array_insert.2.1 (ArrayStructure.ofList (List.replicate 100 3)) 5 1 (by decide)⟩

/-- Indexed shape of `treeInitAux`: the `k`-th processed value produces a
create step at position `2k` and a connect step at position `2k+1`. -/
theorem treeInitAux_get? : ∀ (l : List Int) (i k : Nat), k < l.length →
    (treeInitAux i l).get? (2 * k)
        = some (.CreateNodeOp (l.getD k 0) (Int.ofNat (i + k)) false)
    ∧ (treeInitAux i l).get? (2 * k + 1)
        = some (.ConnectOp (Int.ofNat ((i + k - 1) / 2)) (Int.ofNat (i + k))
            ((i + k) % 2 == 1) (-1) false)
  | [], _, k, h => absurd h (by simp)
  | v :: rest, i, 0, _ => ⟨rfl, rfl⟩
  | v :: rest, i, k + 1, h => by
    have ih := treeInitAux_get? rest (i + 1) k (by simpa using Nat.lt_of_succ_lt_succ h)
    have h1 : (treeInitAux i (v :: rest)).get? (2 * (k + 1))
        = (treeInitAux (i + 1) rest).get? (2 * k) := by
      rw [show 2 * (k + 1) = 2 * k + 2 from by omega]
      rfl
    have h2 : (treeInitAux i (v :: rest)).get? (2 * (k + 1) + 1)
        = (treeInitAux (i + 1) rest).get? (2 * k + 1) := by
      rw [show 2 * (k + 1) + 1 = (2 * k + 1) + 2 from by omega]
      rfl
    have h3 : i + 1 + k = i + (k + 1) := by omega
    constructor
    · rw [h1, ih.1, h3]
      rfl
    · rw [h2, ih.2, h3]

/-- C8: Tree level-order init.  For every nonempty value list the factory's
first two steps create node 0 and set it as root, and for every index
`i > 0` steps `2i` and `2i+1` create node `i` and connect it to node
`(i-1)/2` — as left child when `i` is odd, right child when `i` is even.
On `[10,5,15,3,7,12,20]` execution yields root 10 with children 5 and 15,
5's children 3 and 7, 15's children 12 and 20 (node count 7), and undoing
the whole composite leaves the tree empty: node count 0, no root, no temp
node, and all seven node ids released from the registry. -/
theorem C8_tree_levelOrder_init :
    (∀ (t : BinaryTreeStructure) (values : List Int) (v0 : Int) (rest : List Int),
        values = v0 :: rest →
        (binaryTreeInit t values).1.get? 0 = some (.CreateNodeOp v0 0 false)
        ∧ (binaryTreeInit t values).1.get? 1 = some (.SetRootOp 0 (-1) false)
        ∧ ∀ i : Nat, 0 < i → i < values.length →
            (binaryTreeInit t values).1.get? (2 * i)
              = some (.CreateNodeOp (values.getD i 0) (Int.ofNat i) false)
            ∧ (binaryTreeInit t values).1.get? (2 * i + 1)
              = some (.ConnectOp (Int.ofNat ((i - 1) / 2)) (Int.ofNat i)
                  (i % 2 == 1) (-1) false))
    ∧ (tree7Exec.2.root = some 0
        ∧ tree7Exec.2.nodeCount = 7
        ∧ tree7Exec.2.tempSlot = none
        ∧ tree7Exec.2.registry 0 = some ⟨10, some 1, some 2, none⟩
        ∧ tree7Exec.2.registry 1 = some ⟨5, some 3, some 4, some 0⟩
        ∧ tree7Exec.2.registry 2 = some ⟨15, some 5, some 6, some 0⟩
        ∧ tree7Exec.2.registry 3 = some ⟨3, none, none, some 1⟩
        ∧ tree7Exec.2.registry 4 = some ⟨7, none, none, some 1⟩
        ∧ tree7Exec.2.registry 5 = some ⟨12, none, none, some 2⟩
        ∧ tree7Exec.2.registry 6 = some ⟨20, none, none, some 2⟩)
    ∧ (tree7Undo.nodeCount = 0 ∧ tree7Undo.root = none ∧ tree7Undo.tempSlot = none
        ∧ ∀ i : Nat, i < 7 → tree7Undo.registry (Int.ofNat i) = none) := by
  refine ⟨?_, by decide, by decide⟩
  intro t values v0 rest h
  subst h
  refine ⟨rfl, rfl, ?_⟩
  intro i hpos hlen
  obtain ⟨k, rfl⟩ : ∃ k, i = k + 1 := ⟨i - 1, by omega⟩
  have hk : k < rest.length := by
    simpa using Nat.lt_of_succ_lt_succ hlen
  have haux := treeInitAux_get? rest 1 k hk
  have e1 : (binaryTreeInit t (v0 :: rest)).1.get? (2 * (k + 1))
      = (treeInitAux 1 rest).get? (2 * k) := by
    rw [show 2 * (k + 1) = 2 * k + 2 from by omega]
    rfl
  have e2 : (binaryTreeInit t (v0 :: rest)).1.get? (2 * (k + 1) + 1)
      = (treeInitAux 1 rest).get? (2 * k + 1) := by
    rw [show 2 * (k + 1) + 1 = (2 * k + 1) + 2 from by omega]
    rfl
  have h3 : 1 + k = k + 1 := by omega
  constructor
  · rw [e1, haux.1, h3]
    rfl
  · rw [e2, haux.2, h3]

/-- C8 witness: the step-shape instantiated on the worked example at
index 2 (an even, right-child position), hypotheses discharged by
computation. -/
theorem C8_tree_levelOrder_init_witness :
    tree7.1.get? 0 = some (.CreateNodeOp 10 0 false)
    ∧ tree7.1.get? 4 = some (.CreateNodeOp 15 2 false)
    ∧ tree7.1.get? 5 = some (.ConnectOp 0 2 false (-1) false) :=
  ⟨(C8_tree_levelOrder_init.1 initialTree [10, 5, 15, 3, 7, 12, 20] 10
      [5, 15, 3, 7, 12, 20] rfl).1,
    ((C8_tree_levelOrder_init.1 initialTree [10, 5, 15, 3, 7, 12, 20] 10
      [5, 15, 3, 7, 12, 20] rfl).2.2 2 (by decide) (by decide)).1,
    ((C8_tree_levelOrder_init.1 initialTree [10, 5, 15, 3, 7, 12, 20] 10
      [5, 15, 3, 7, 12, 20] rfl).2.2 2 (by decide) (by decide)).2⟩

/-- C9 counterexample: bubble sort on `[5,2,8,1,9]` performs 4 adjacent
swaps (its inversion count), not 6, so the composite records 4 Move steps. -/
theorem C9_swap_count_counterexample :
    (ArraySortModel.arraySort [5, 2, 8, 1, 9]).2.length = 4
    ∧ (ArraySortModel.arraySort [5, 2, 8, 1, 9]).2.length ≠ 6 := by
  decide

/-- C9 (amended): executing the Sort composite on `[5,2,8,1,9]` (applying
its recorded Move/swap steps in order) produces `[1,2,5,8,9]`, the
simulation's own result is `[1,2,5,8,9]`, and the number of recorded Move
steps equals the number of swaps the bubble-sort simulation performs on
that input — which is 4, not a fixed `N(N-1)/2 = 10` and not 6. -/
theorem C9_bubble_sort :
    ArraySortModel.applySwaps [5, 2, 8, 1, 9] (ArraySortModel.arraySort [5, 2, 8, 1, 9]).2
        = [1, 2, 5, 8, 9]
    ∧ (ArraySortModel.arraySort [5, 2, 8, 1, 9]).1 = [1, 2, 5, 8, 9]
    ∧ (ArraySortModel.arraySort [5, 2, 8, 1, 9]).2.length = 4
    ∧ (ArraySortModel.arraySort [5, 2, 8, 1, 9]).2.length ≠ 10 := by
  decide

/-- C10: Implicit size cap.  `resize` clamps every request to
`MAX_SIZE = 100` and zero-fills newly exposed cells when growing, every
atomic operation (and hence every composite) preserves `size ≤ 100`, and the
insert factory on a full array yields a composite with zero steps. -/
theorem C10_capacity_invariant :
    (∀ (a : ArrayStructure) (n : Nat), (a.resize n).size = min n ArrayStructure.maxSize)
    ∧ (∀ (a : ArrayStructure) (n : Nat), (a.resize n).size ≤ ArrayStructure.maxSize)
    ∧ (∀ (a : ArrayStructure) (n j : Nat), a.size ≤ j → j < min n ArrayStructure.maxSize →
        (a.resize n).read j = 0)
    ∧ (∀ (op : ArrayOp) (a : ArrayStructure), a.size ≤ ArrayStructure.maxSize →
        ((ArrayOp.execute op a).2).size ≤ ArrayStructure.maxSize)
    ∧ (∀ (ops : List ArrayOp) (a : ArrayStructure), a.size ≤ ArrayStructure.maxSize →
        ((executeAll ArrayOp.execute ops a).2).size ≤ ArrayStructure.maxSize)
    ∧ (∀ (a : ArrayStructure) (index : Nat) (value : Int),
        a.size = ArrayStructure.maxSize → arrayInsert a index value = []) := by
  refine ⟨?_, ?_, ?_, ?_, ?_, ?_⟩
  · intro a n
    rfl
  · intro a n
    show min n ArrayStructure.maxSize ≤ ArrayStructure.maxSize
    exact min_le_right n _
  · intro a n j h1 h2
    show (if a.size ≤ j ∧ j < min n ArrayStructure.maxSize then 0 else a.data j) = 0
    rw [if_pos ⟨h1, h2⟩]
  · intro op a h
    cases op with
    | WriteOp i o v => exact h
    | MoveOp f t o => exact h
    | ResizeOp n o => exact min_le_right n _
  · intro ops
    induction ops with
    | nil => intro a h; exact h
    | cons op rest ih =>
      intro a h
      rw [executeAll_cons]
      refine ih (ArrayOp.execute op a).2 ?_
      cases op with
      | WriteOp i o v => exact h
      | MoveOp f t o => exact h
      | ResizeOp n o => exact min_le_right n _
  · intro a index value h
    unfold arrayInsert
    rw [if_pos (le_of_eq h.symm)]

/-- C10 witness: the cap behaviour at concrete inputs — an oversized resize
request clamps to 100, a grow zero-fill, size preservation, and the empty
composite on a full array — hypotheses discharged by computation. -/
theorem C10_capacity_invariant_witness :
    ((ArrayStructure.ofList [1, 2]).resize 1000).size = min 1000 ArrayStructure.maxSize
    ∧ ((ArrayStructure.ofList [1, 2]).resize 5).read 3 = 0
    ∧ ((executeAll ArrayOp.execute [ArrayOp.ResizeOp 1000 0]
        (ArrayStructure.ofList [1, 2])).2).size ≤ ArrayStructure.maxSize
    ∧ arrayInsert (ArrayStructure.ofList (List.replicate 100 1)) 3 4 = [] :=
  ⟨C10_capacity_invariant.1 (ArrayStructure.ofList [1, 2]) 1000,
    C10_capacity_invariant.2.2.1 (ArrayStructure.ofList [1, 2]) 5 3 (by decide) (by decide),
    C10_capacity_invariant.2.2.2.2.1 [ArrayOp.ResizeOp 1000 0]
      (ArrayStructure.ofList [1, 2]) (by decide),
    C10_capacity_invariant.2.2.2.2.2 (ArrayStructure.ofList (List.replicate 100 1)) 3 4
      (by decide)⟩

end DSVis
